import Mathlib

/-
Verification of the zenith compiler front-end (lexer and AST schema).

The lexer token rules are translated from src/src/lexer.rs (a `logos`
derive on `enum Token`). The AST data model (Span, Identifier, Type,
Mutability, TypePath) is translated from src/src/ast/mod.rs and
src/src/ast/types.rs, together with the `Display` implementation for
`Type`.

Machine integers (`usize` offsets) are modelled as `Nat`: the lexer
only ever adds small positive amounts to offsets, so no overflow
behaviour is observable for realistic inputs and none of the claims
concerns wraparound.
-/

namespace Zenith

/-- Span from src/src/ast/mod.rs: `{start, end, line, column: usize}`.
Derived `PartialEq` compares all four fields. -/
structure Span where
  start : Nat
  «end» : Nat
  line : Nat
  column : Nat
deriving DecidableEq

/-- Models `Span::new`, which stores its four arguments unchanged
(src/src/ast/mod.rs lines 18-25); it performs no validation. -/
def Span.new (start «end» line column : Nat) : Span :=
  { start := start, «end» := «end», line := line, column := column }

/-- Models `Span::dummy` (src/src/ast/mod.rs lines 27-34): all fields zero. -/
def Span.dummy : Span :=
  { start := 0, «end» := 0, line := 0, column := 0 }

/-- Models the derived `PartialEq` for `Span`: field-by-field equality. -/
def spanEqb (a b : Span) : Bool :=
  a.start == b.start && a.«end» == b.«end» && a.line == b.line && a.column == b.column

/-- Identifier from src/src/ast/mod.rs: `{name: String, span: Span}`. -/
structure Identifier where
  name : String
  span : Span
deriving DecidableEq

/-- Models `Identifier::new` (src/src/ast/mod.rs lines 43-47). -/
def Identifier.new (name : String) (span : Span) : Identifier :=
  { name := name, span := span }

/-- Models the derived `PartialEq` for `Identifier`: it compares the
`name` field and the `span` field (both are part of the derive). -/
def identEqb (a b : Identifier) : Bool :=
  a.name == b.name && spanEqb a.span b.span

/-- Token from src/src/lexer.rs, one constructor per enum variant. -/
inductive Token where
  | Var | Mut | Fn | Const | Struct | Enum | Union | If | Else | While
  | For | Loop | Match | Mod | Return | Panic
  | I8 | I16 | I32 | I64 | I128 | U8 | U16 | U32 | U64 | U128
  | F32 | F64 | Isize | Usize | Bool | Char | Str
  | IntegerLiteral | FloatLiteral | StringLiteral | CharLiteral
  | True | False
  | Identifier
  | Plus | Minus | Star | Slash | Percent | Assign | Eq | NotEq
  | Lt | LtEq | Gt | GtEq | And | Or | Not | BitAnd | BitOr | BitXor
  | BitNot | Shl | Shr
  | LParen | RParen | LBrace | RBrace | LBracket | RBracket
  | Semicolon | Colon | Comma | Dot | Arrow
  | SingleLineComment | MultiLineComment | Attribute | MacroInvoke
deriving DecidableEq

/-- The double-quote character, written by code point to keep the
source free of quote characters inside character literals. -/
def dq : Char := Char.ofNat 34

/-- The single-quote character, by code point. -/
def sq : Char := Char.ofNat 39

/-- Whitespace skipped by the lexer: `#[logos(skip r"[ \t\n\f]+")]`
(src/src/lexer.rs line 5). Note `\r` is not included. -/
def isWhitespace (c : Char) : Bool :=
  c == ' ' || c == '\t' || c == '\n' || c == '\x0C'

/-- Exact-string rules of src/src/lexer.rs (`#[token("...")]`), in
declaration order, paired with the token they produce. -/
def fixedList : List (String × Token) :=
  [("var", .Var), ("mut", .Mut), ("fn", .Fn), ("const", .Const),
   ("struct", .Struct), ("enum", .Enum), ("union", .Union), ("if", .If),
   ("else", .Else), ("while", .While), ("for", .For), ("loop", .Loop),
   ("match", .Match), ("mod", .Mod), ("return", .Return), ("panic", .Panic),
   ("i8", .I8), ("i16", .I16), ("i32", .I32), ("i64", .I64), ("i128", .I128),
   ("u8", .U8), ("u16", .U16), ("u32", .U32), ("u64", .U64), ("u128", .U128),
   ("f32", .F32), ("f64", .F64), ("isize", .Isize), ("usize", .Usize),
   ("bool", .Bool), ("char", .Char), ("str", .Str),
   ("true", .True), ("false", .False),
   ("+", .Plus), ("-", .Minus), ("*", .Star), ("/", .Slash), ("%", .Percent),
   ("=", .Assign), ("==", .Eq), ("!=", .NotEq), ("<", .Lt), ("<=", .LtEq),
   (">", .Gt), (">=", .GtEq), ("&&", .And), ("||", .Or), ("!", .Not),
   ("&", .BitAnd), ("|", .BitOr), ("^", .BitXor), ("~", .BitNot),
   ("<<", .Shl), (">>", .Shr),
   ("(", .LParen), (")", .RParen), ("\x7b", .LBrace), ("\x7d", .RBrace),
   ("[", .LBracket), ("]", .RBracket), (";", .Semicolon), (":", .Colon),
   (",", .Comma), (".", .Dot), ("->", .Arrow),
   ("@", .MacroInvoke)]

/-- Tests whether the first list is a prefix of the second. -/
def prefixAt : List Char → List Char → Bool
  | [], _ => true
  | _ :: _, [] => false
  | w :: ws, c :: cs => w == c && prefixAt ws cs

/-- Longest match of `[0-9]+` (IntegerLiteral, src/src/lexer.rs line 78). -/
def matchInt (cs : List Char) : Option Nat :=
  let d := (cs.takeWhile Char.isDigit).length
  if d = 0 then none else some d

/-- Longest match of `[0-9]+\.[0-9]+` (FloatLiteral, line 80). -/
def matchFloat (cs : List Char) : Option Nat :=
  let d1 := (cs.takeWhile Char.isDigit).length
  if d1 = 0 then none else
  match cs.drop d1 with
  | '.' :: rest =>
    let d2 := (rest.takeWhile Char.isDigit).length
    if d2 = 0 then none else some (d1 + 1 + d2)
  | _ => none

/-- Longest match of a double quote, a run of non-quote characters,
and a closing double quote (StringLiteral, line 82). -/
def matchStringLit (cs : List Char) : Option Nat :=
  match cs with
  | c :: rest =>
    if c == dq then
      let body := (rest.takeWhile (fun ch => !(ch == dq))).length
      match rest.drop body with
      | d :: _ => if d == dq then some (body + 2) else none
      | [] => none
    else none
  | [] => none

/-- Match of a single quote, one non-quote character, and a closing
single quote (CharLiteral, line 84). -/
def matchCharLit (cs : List Char) : Option Nat :=
  match cs with
  | a :: rest =>
    if a == sq then
      match rest with
      | c :: rest2 =>
        if c == sq then none
        else
          match rest2 with
          | b :: _ => if b == sq then some 3 else none
          | [] => none
      | [] => none
    else none
  | [] => none

/-- First character class `[a-zA-Z_]` of the identifier rule. -/
def isIdentStart (c : Char) : Bool := c.isAlpha || c == '_'

/-- Continuation class `[a-zA-Z0-9_]` of the identifier rule. -/
def isIdentCont (c : Char) : Bool := c.isAlphanum || c == '_'

/-- Longest match of `[a-zA-Z_][a-zA-Z0-9_]*` (Identifier, line 91). -/
def matchIdent (cs : List Char) : Option Nat :=
  match cs with
  | c :: rest =>
    if isIdentStart c then some (1 + (rest.takeWhile isIdentCont).length) else none
  | [] => none

/-- Longest match of `//[^\n]*` (SingleLineComment, line 160). -/
def matchLineComment (cs : List Char) : Option Nat :=
  match cs with
  | '/' :: '/' :: rest => some (2 + (rest.takeWhile (fun c => !(c == '\n'))).length)
  | _ => none

/-- Match of `([^*]|\*[^/])*\*/`: the body-and-terminator part of the
multi-line comment regex (line 162). Returns the number of characters
consumed including the closing `*/`. -/
def matchBlockBody : List Char → Option Nat
  | [] => none
  | c :: rest =>
    if c == '*' then
      match rest with
      | [] => none
      | d :: rest2 =>
        if d == '/' then some 2 else (matchBlockBody rest2).map (fun n => n + 2)
    else (matchBlockBody rest).map (fun n => n + 1)

/-- Match of `/\*([^*]|\*[^/])*\*/` (MultiLineComment, line 162). -/
def matchBlockComment (cs : List Char) : Option Nat :=
  match cs with
  | '/' :: '*' :: rest => (matchBlockBody rest).map (fun n => n + 2)
  | _ => none

/-- Longest match of `#\[[^\]]*\]` (Attribute, line 165). -/
def matchAttribute (cs : List Char) : Option Nat :=
  match cs with
  | '#' :: '[' :: rest =>
    let body := (rest.takeWhile (fun c => !(c == ']'))).length
    match rest.drop body with
    | ']' :: _ => some (body + 3)
    | _ => none
  | _ => none

/-- The regex rules of src/src/lexer.rs in declaration order, paired
with their longest-prefix-match functions. -/
def regexList : List (Token × (List Char → Option Nat)) :=
  [(.IntegerLiteral, matchInt), (.FloatLiteral, matchFloat),
   (.StringLiteral, matchStringLit), (.CharLiteral, matchCharLit),
   (.Identifier, matchIdent), (.SingleLineComment, matchLineComment),
   (.MultiLineComment, matchBlockComment), (.Attribute, matchAttribute)]

/-- All rules that match a prefix at the current position, with the
length they match. Exact-string rules come first: logos gives a
`#[token]` rule priority twice its length, which beats every regex
rule here whenever both match a prefix of equal length. -/
def candidates (cs : List Char) : List (Token × Nat) :=
  fixedList.filterMap
    (fun pr => if prefixAt pr.1.data cs then some (pr.2, pr.1.data.length) else none)
  ++ regexList.filterMap (fun pr => (pr.2 cs).map (fun n => (pr.1, n)))

/-- Keeps the candidate matching the longer prefix; on a tie the
earlier (higher-priority) candidate is kept. -/
def better (a b : Token × Nat) : Token × Nat :=
  if a.2 < b.2 then b else a

/-- Modelled from the spec: maximal munch with priority tie-break
(spec section 4.1, matching discipline items 2-3). The winning rule at
a position is the one matching the longest prefix, ties resolved in
favour of exact-string rules. The scanning loop itself is generated by
the `logos` derive and is not present under src/. -/
def bestMatch (cs : List Char) : Option (Token × Nat) :=
  match candidates cs with
  | [] => none
  | x :: xs => some (xs.foldl better x)

/-- One output slot of the lexer: a classified token or an error. -/
inductive LexResult where
  | ok : Token → LexResult
  | err : LexResult
deriving DecidableEq

/-- Instrumented lexer output: emitted results with their spans, plus
the skipped whitespace characters with their spans. -/
inductive LexEvent where
  | tok : LexResult → Nat → Nat → LexEvent
  | ws : Nat → Nat → LexEvent
deriving DecidableEq

/-- Span of an event, as a half-open interval of character offsets. -/
def evSpan : LexEvent → Nat × Nat
  | .tok _ a b => (a, b)
  | .ws a b => (a, b)

/-- Modelled from the spec: the scanning loop of the logos-generated
lexer (spec section 4.1): skip whitespace characters; at each
non-whitespace position emit the best match and advance past it; if no
rule matches, emit an error spanning one code point and resume after
it (spec section 4.1 item 6). `fuel` bounds the recursion and is
irrelevant whenever `fuel ≥ cs.length`, since every step consumes at
least one character. -/
def lexAux : Nat → List Char → Nat → List LexEvent
  | 0, _, _ => []
  | _ + 1, [], _ => []
  | fuel + 1, c :: rest, pos =>
    if isWhitespace c then .ws pos (pos + 1) :: lexAux fuel rest (pos + 1)
    else
      match bestMatch (c :: rest) with
      | some (t, n) => .tok (.ok t) pos (pos + n) :: lexAux fuel (rest.drop (n - 1)) (pos + n)
      | none => .tok .err pos (pos + 1) :: lexAux fuel rest (pos + 1)

/-- Full instrumented scan of an input, from offset 0. -/
def lexEvents (cs : List Char) : List LexEvent :=
  lexAux cs.length cs 0

/-- The lexer's visible output: the sequence of results (token or
error) with their spans, in input order; whitespace is skipped and
never emitted (src/src/lexer.rs line 5). -/
def lexTokensL (cs : List Char) : List (LexResult × Nat × Nat) :=
  (lexEvents cs).filterMap
    (fun e => match e with | .tok r a b => some (r, a, b) | .ws _ _ => none)

/-- String-level wrapper for `lexTokensL`. -/
def lexTokens (s : String) : List (LexResult × Nat × Nat) :=
  lexTokensL s.data

/-- A list of half-open spans tiles the interval from `a` to `b`:
each span is nonempty, starts where the previous one ended, the first
starts at `a` and the last ends at `b`. -/
def isTiling : List (Nat × Nat) → Nat → Nat → Prop
  | [], a, b => a = b
  | (s, e) :: rest, a, b => s = a ∧ a < e ∧ isTiling rest e b

/-- Mutability from src/src/ast/types.rs lines 48-52. -/
inductive Mutability where
  | Mutable
  | Immutable
deriving DecidableEq

mutual

/-- The `Type` enum of src/src/ast/types.rs lines 4-33 (named `Ty`
because `Type` is reserved in Lean). The array-size expression is
represented by its derived-Debug rendering (a `String`): the `Display`
implementation under verification consumes the size expression only
through `write!(f, "; {:?}", size)`, so the rendering depends on the
expression only via that text. -/
inductive Ty where
  | I8 | I16 | I32 | I64 | I128 | U8 | U16 | U32 | U64 | U128
  | F32 | F64 | Bool | Char | Str | Unit | Never
  | Array (ty : Ty) (size : Option String)
  | Slice (ty : Ty)
  | Pointer (ty : Ty) (m : Mutability)
  | Reference (ty : Ty) (m : Mutability)
  | Tuple (types : List Ty)
  | Function (params : List Ty) (ret : Ty)
  | Named (path : TypePath)
  | Generic (base : Ty) (args : List Ty)

/-- TypePath from src/src/ast/types.rs lines 35-39. -/
inductive TypePath where
  | mk (segments : List TypePathSegment) (span : Span)

/-- TypePathSegment from src/src/ast/types.rs lines 41-46. -/
inductive TypePathSegment where
  | mk (ident : Identifier) (generic_args : Option (List Ty)) (span : Span)

end

mutual

/-- The `impl fmt::Display for Type` of src/src/ast/types.rs lines
124-220, translated case by case; `write!` calls become string
concatenation. -/
def Ty.display : Ty → String
  | .I8 => "i8"
  | .I16 => "i16"
  | .I32 => "i32"
  | .I64 => "i64"
  | .I128 => "i128"
  | .U8 => "u8"
  | .U16 => "u16"
  | .U32 => "u32"
  | .U64 => "u64"
  | .U128 => "u128"
  | .F32 => "f32"
  | .F64 => "f64"
  | .Bool => "bool"
  | .Char => "char"
  | .Str => "str"
  | .Unit => "()"
  | .Never => "!"
  | .Array ty size =>
    "[" ++ Ty.display ty
        ++ (match size with | some d => "; " ++ d | none => "") ++ "]"
  | .Slice ty => "[" ++ Ty.display ty ++ "]"
  | .Pointer ty m =>
    (match m with | .Mutable => "*mut " | .Immutable => "*const ") ++ Ty.display ty
  | .Reference ty m =>
    (match m with | .Mutable => "&mut " | .Immutable => "&") ++ Ty.display ty
  | .Tuple types => "(" ++ displayList types ++ ")"
  | .Function params ret => "fn(" ++ displayList params ++ ") -> " ++ Ty.display ret
  | .Named (.mk segments _) => displaySegments segments
  | .Generic base args => Ty.display base ++ "<" ++ displayList args ++ ">"

/-- The comma-separated rendering loop (`if i > 0 { ", " }` then the
element) shared by the Tuple, Function, Named and Generic cases. -/
def displayList : List Ty → String
  | [] => ""
  | [t] => Ty.display t
  | t :: ts => Ty.display t ++ ", " ++ displayList ts

/-- The `"::"`-separated rendering loop of the Named case. -/
def displaySegments : List TypePathSegment → String
  | [] => ""
  | [s] => displaySegment s
  | s :: ss => displaySegment s ++ "::" ++ displaySegments ss

/-- One path segment: its identifier's name, then `<...>` around its
comma-separated generic arguments when present. -/
def displaySegment : TypePathSegment → String
  | .mk ident none _ => ident.name
  | .mk ident (some args) _ => ident.name ++ "<" ++ displayList args ++ ">"

end

/-- Joins strings with a separator; used to state rendering claims
independently of the recursive rendering loops. -/
def joinSep (sep : String) : List String → String
  | [] => ""
  | [x] => x
  | x :: xs => x ++ sep ++ joinSep sep xs

/-- Decides membership in the language `([^*]|\*[^/])*` of multi-line
comment bodies: a lone `*` must be followed by a character other than
`/`, and the body cannot end in `*`. -/
def validBody : List Char → Bool
  | [] => true
  | c :: rest =>
    if c == '*' then
      match rest with
      | [] => false
      | d :: rest2 => if d == '/' then false else validBody rest2
    else validBody rest

theorem takeWhile_length_le {α : Type} (p : α → Bool) :
    ∀ (l : List α), (l.takeWhile p).length ≤ l.length
  | [] => by simp
  | c :: l => by
    rw [List.takeWhile_cons]
    split
    · simpa using Nat.succ_le_succ (takeWhile_length_le p l)
    · simp

theorem prefixAt_length_le :
    ∀ (w cs : List Char), prefixAt w cs = true → w.length ≤ cs.length
  | [], _, _ => by simp
  | w :: ws, [], h => by simp [prefixAt] at h
  | w :: ws, c :: cs, h => by
    simp [prefixAt] at h
    simpa using prefixAt_length_le ws cs h.2


theorem matchInt_bounds {cs : List Char} {n : Nat} (h : matchInt cs = some n) :
    1 ≤ n ∧ n ≤ cs.length := by
  simp only [matchInt] at h
  split at h
  · exact absurd h (by simp)
  · rename_i hd
    cases h
    exact ⟨by omega, takeWhile_length_le _ _⟩

theorem matchFloat_bounds {cs : List Char} {n : Nat} (h : matchFloat cs = some n) :
    1 ≤ n ∧ n ≤ cs.length := by
  simp only [matchFloat] at h
  split at h
  · exact absurd h (by simp)
  · rename_i hd1
    split at h
    · rename_i rest heq
      split at h
      · exact absurd h (by simp)
      · rename_i hd2
        cases h
        have h2 : (rest.takeWhile Char.isDigit).length ≤ rest.length :=
          takeWhile_length_le _ _
        have h3 := congrArg List.length heq
        simp only [List.length_drop, List.length_cons] at h3
        omega
    · exact absurd h (by simp)

theorem matchStringLit_bounds {cs : List Char} {n : Nat} (h : matchStringLit cs = some n) :
    1 ≤ n ∧ n ≤ cs.length := by
  simp only [matchStringLit] at h
  split at h
  · rename_i c rest
    split at h
    · split at h
      · rename_i d t heq
        split at h
        · cases h
          have h2 : (rest.takeWhile (fun ch => !(ch == dq))).length ≤ rest.length :=
            takeWhile_length_le _ _
          have h3 := congrArg List.length heq
          simp only [List.length_drop, List.length_cons] at h3
          simp only [List.length_cons]
          omega
        · exact absurd h (by simp)
      · exact absurd h (by simp)
    · exact absurd h (by simp)
  · exact absurd h (by simp)

theorem matchCharLit_bounds {cs : List Char} {n : Nat} (h : matchCharLit cs = some n) :
    1 ≤ n ∧ n ≤ cs.length := by
  simp only [matchCharLit] at h
  split at h
  · rename_i a rest
    split at h
    · split at h
      · rename_i c rest2
        split at h
        · exact absurd h (by simp)
        · split at h
          · rename_i b t
            split at h
            · cases h
              simp only [List.length_cons]
              omega
            · exact absurd h (by simp)
          · exact absurd h (by simp)
      · exact absurd h (by simp)
    · exact absurd h (by simp)
  · exact absurd h (by simp)

theorem matchIdent_bounds {cs : List Char} {n : Nat} (h : matchIdent cs = some n) :
    1 ≤ n ∧ n ≤ cs.length := by
  simp only [matchIdent] at h
  split at h
  · rename_i c rest
    split at h
    · cases h
      have h2 : (rest.takeWhile isIdentCont).length ≤ rest.length :=
        takeWhile_length_le _ _
      simp only [List.length_cons]
      omega
    · exact absurd h (by simp)
  · exact absurd h (by simp)

theorem matchLineComment_bounds {cs : List Char} {n : Nat} (h : matchLineComment cs = some n) :
    1 ≤ n ∧ n ≤ cs.length := by
  simp only [matchLineComment] at h
  split at h
  · rename_i rest
    cases h
    have h2 : (rest.takeWhile (fun c => !(c == '\n'))).length ≤ rest.length :=
      takeWhile_length_le _ _
    simp only [List.length_cons]
    omega
  · exact absurd h (by simp)

theorem matchBlockBody_bounds :
    ∀ {cs : List Char} {n : Nat}, matchBlockBody cs = some n → 2 ≤ n ∧ n ≤ cs.length
  | [], n, h => by simp [matchBlockBody] at h
  | c :: rest, n, h => by
    rw [matchBlockBody.eq_def] at h
    dsimp only at h
    split at h
    · split at h
      · exact absurd h (by simp)
      · rename_i d rest2
        split at h
        · cases h
          simp only [List.length_cons]
          omega
        · cases hm : matchBlockBody rest2 with
          | none => rw [hm] at h; exact absurd h (by simp)
          | some k =>
            rw [hm, Option.map_some'] at h
            cases h
            have hk := matchBlockBody_bounds hm
            simp only [List.length_cons]
            omega
    · cases hm : matchBlockBody rest with
      | none => rw [hm] at h; exact absurd h (by simp)
      | some k =>
        rw [hm, Option.map_some'] at h
        cases h
        have hk := matchBlockBody_bounds hm
        simp only [List.length_cons]
        omega

theorem matchBlockComment_bounds {cs : List Char} {n : Nat} (h : matchBlockComment cs = some n) :
    1 ≤ n ∧ n ≤ cs.length := by
  simp only [matchBlockComment] at h
  split at h
  · rename_i rest
    cases hm : matchBlockBody rest with
    | none => rw [hm] at h; exact absurd h (by simp)
    | some k =>
      rw [hm, Option.map_some'] at h
      cases h
      have hk := matchBlockBody_bounds hm
      simp only [List.length_cons]
      omega
  · exact absurd h (by simp)

theorem matchAttribute_bounds {cs : List Char} {n : Nat} (h : matchAttribute cs = some n) :
    1 ≤ n ∧ n ≤ cs.length := by
  simp only [matchAttribute] at h
  split at h
  · rename_i rest
    split at h
    · rename_i t heq
      cases h
      have h2 : (rest.takeWhile (fun c => !(c == ']'))).length ≤ rest.length :=
        takeWhile_length_le _ _
      have h3 := congrArg List.length heq
      simp only [List.length_drop, List.length_cons] at h3
      simp only [List.length_cons]
      omega
    · exact absurd h (by simp)
  · exact absurd h (by simp)

theorem fixedList_words_nonempty : ∀ pr ∈ fixedList, 1 ≤ pr.1.data.length := by decide

theorem candidates_bounds {cs : List Char} {p : Token × Nat} (hp : p ∈ candidates cs) :
    1 ≤ p.2 ∧ p.2 ≤ cs.length := by
  unfold candidates at hp
  rcases List.mem_append.1 hp with h | h
  · rcases List.mem_filterMap.1 h with ⟨⟨w, t⟩, hmem, hf⟩
    dsimp only at hf
    split at hf
    · rename_i hpre
      cases hf
      refine ⟨?_, prefixAt_length_le _ _ hpre⟩
      exact fixedList_words_nonempty _ hmem
    · exact absurd hf (by simp)
  · rcases List.mem_filterMap.1 h with ⟨⟨t, m⟩, hmem, hf⟩
    dsimp only at hf
    cases hm : m cs with
    | none => rw [hm] at hf; exact absurd hf (by simp)
    | some n =>
      rw [hm, Option.map_some'] at hf
      cases hf
      simp only [regexList, List.mem_cons, List.not_mem_nil, or_false,
        Prod.mk.injEq] at hmem
      rcases hmem with ⟨_, hm'⟩ | ⟨_, hm'⟩ | ⟨_, hm'⟩ | ⟨_, hm'⟩ |
        ⟨_, hm'⟩ | ⟨_, hm'⟩ | ⟨_, hm'⟩ | ⟨_, hm'⟩ <;> subst hm'
      · exact matchInt_bounds hm
      · exact matchFloat_bounds hm
      · exact matchStringLit_bounds hm
      · exact matchCharLit_bounds hm
      · exact matchIdent_bounds hm
      · exact matchLineComment_bounds hm
      · exact matchBlockComment_bounds hm
      · exact matchAttribute_bounds hm

theorem foldl_better_mem :
    ∀ (xs : List (Token × Nat)) (x : Token × Nat), xs.foldl better x ∈ x :: xs
  | [], x => by simp
  | y :: ys, x => by
    have h := foldl_better_mem ys (better x y)
    rw [List.foldl_cons]
    rcases List.mem_cons.1 h with h | h
    · rw [h]
      unfold better
      split
      · simp
      · simp
    · simp [h]

theorem bestMatch_bounds {cs : List Char} {t : Token} {n : Nat}
    (h : bestMatch cs = some (t, n)) : 1 ≤ n ∧ n ≤ cs.length := by
  unfold bestMatch at h
  split at h
  · exact absurd h (by simp)
  · rename_i x xs heq
    injection h with h2
    have hmem : xs.foldl better x ∈ x :: xs := foldl_better_mem xs x
    rw [← heq] at hmem
    rw [h2] at hmem
    simpa using candidates_bounds hmem

theorem lexAux_nil : ∀ (fuel pos : Nat), lexAux fuel [] pos = []
  | 0, _ => rfl
  | _ + 1, _ => rfl

theorem lexAux_step_ws {c : Char} {cs : List Char} (fuel pos : Nat)
    (hws : isWhitespace c = true) :
    lexAux (fuel + 1) (c :: cs) pos = .ws pos (pos + 1) :: lexAux fuel cs (pos + 1) := by
  simp [lexAux, hws]

theorem lexAux_step_tok {c : Char} {cs : List Char} {t : Token} {n : Nat} (fuel pos : Nat)
    (hws : isWhitespace c = false) (hm : bestMatch (c :: cs) = some (t, n)) :
    lexAux (fuel + 1) (c :: cs) pos =
      .tok (.ok t) pos (pos + n) :: lexAux fuel (cs.drop (n - 1)) (pos + n) := by
  simp [lexAux, hws, hm]

theorem lexAux_step_err {c : Char} {cs : List Char} (fuel pos : Nat)
    (hws : isWhitespace c = false) (hm : bestMatch (c :: cs) = none) :
    lexAux (fuel + 1) (c :: cs) pos = .tok .err pos (pos + 1) :: lexAux fuel cs (pos + 1) := by
  simp [lexAux, hws, hm]

theorem lexAux_tiling :
    ∀ (fuel : Nat) (cs : List Char) (pos : Nat), cs.length ≤ fuel →
      isTiling ((lexAux fuel cs pos).map evSpan) pos (pos + cs.length)
  | fuel, [], pos, _ => by
    rw [lexAux_nil]
    simp [isTiling]
  | 0, c :: rest, pos, h => by simp at h
  | fuel + 1, c :: rest, pos, h => by
    have hlen : rest.length ≤ fuel := by
      simp only [List.length_cons] at h
      omega
    cases hws : isWhitespace c with
    | true =>
      rw [lexAux_step_ws fuel pos hws]
      have ih := lexAux_tiling fuel rest (pos + 1) hlen
      simp only [List.map_cons, evSpan, isTiling]
      refine ⟨trivial, by omega, ?_⟩
      have he : pos + 1 + rest.length = pos + (c :: rest).length := by
        simp only [List.length_cons]
        omega
      rw [he] at ih
      exact ih
    | false =>
      cases hm : bestMatch (c :: rest) with
      | some p =>
        obtain ⟨t, n⟩ := p
        obtain ⟨h1, h2⟩ := bestMatch_bounds hm
        simp only [List.length_cons] at h2
        rw [lexAux_step_tok fuel pos hws hm]
        have hd : (rest.drop (n - 1)).length = rest.length - (n - 1) :=
          List.length_drop _ _
        have hlen2 : (rest.drop (n - 1)).length ≤ fuel := by omega
        have ih := lexAux_tiling fuel (rest.drop (n - 1)) (pos + n) hlen2
        simp only [List.map_cons, evSpan, isTiling]
        refine ⟨trivial, by omega, ?_⟩
        have he : pos + n + (rest.drop (n - 1)).length = pos + (c :: rest).length := by
          simp only [List.length_cons]
          omega
        rw [he] at ih
        exact ih
      | none =>
        rw [lexAux_step_err fuel pos hws hm]
        have ih := lexAux_tiling fuel rest (pos + 1) hlen
        simp only [List.map_cons, evSpan, isTiling]
        refine ⟨trivial, by omega, ?_⟩
        have he : pos + 1 + rest.length = pos + (c :: rest).length := by
          simp only [List.length_cons]
          omega
        rw [he] at ih
        exact ih

theorem matchBlockBody_append :
    ∀ (body tail : List Char), validBody body = true →
      matchBlockBody (body ++ '*' :: '/' :: tail) = some (body.length + 2)
  | [], _, _ => rfl
  | c :: rest, tail, h => by
    rw [validBody.eq_def] at h
    dsimp only at h
    simp only [List.cons_append]
    rw [matchBlockBody.eq_def]
    dsimp only
    split at h
    · rename_i hc
      rw [if_pos hc]
      cases rest with
      | nil => exact absurd h (by simp)
      | cons d rest2 =>
        dsimp only at h
        split at h
        · exact absurd h (by simp)
        · rename_i hd
          simp only [List.cons_append]
          rw [if_neg hd]
          rw [matchBlockBody_append rest2 tail h, Option.map_some']
          simp only [Option.some.injEq, List.length_cons]
    · rename_i hc
      rw [if_neg hc]
      rw [matchBlockBody_append rest tail h, Option.map_some']
      simp only [Option.some.injEq, List.length_cons]

theorem joinSep_cons (sep x : String) {xs : List String} (h : xs ≠ []) :
    joinSep sep (x :: xs) = x ++ sep ++ joinSep sep xs := by
  cases xs with
  | nil => exact absurd rfl h
  | cons y ys => rfl

theorem displayList_eq_joinSep :
    ∀ (ts : List Ty), displayList ts = joinSep (", ") (ts.map Ty.display)
  | [] => by simp [displayList, joinSep]
  | [t] => by simp [displayList, joinSep]
  | t :: u :: us => by
    have ih := displayList_eq_joinSep (u :: us)
    simp only [List.map_cons]
    rw [joinSep_cons _ _ (by simp)]
    rw [← List.map_cons, ← ih]
    simp [displayList]

theorem displaySegments_eq_joinSep :
    ∀ (segs : List TypePathSegment),
      displaySegments segs = joinSep ("::") (segs.map displaySegment)
  | [] => by simp [displaySegments, joinSep]
  | [s] => by simp [displaySegments, joinSep]
  | s :: u :: us => by
    have ih := displaySegments_eq_joinSep (u :: us)
    simp only [List.map_cons]
    rw [joinSep_cons _ _ (by simp)]
    rw [← List.map_cons, ← ih]
    simp [displaySegments]

/-- The input of the keyword-sequence claim; it lists sixteen
keywords. -/
def kwInput : String :=
  "var mut fn const struct enum union if else while for loop match mod return panic"

/-- The multi-line-comment input whose body ends in a `*`. -/
def starBody : String := "/* a **/"

/-- C1: for every input, the concatenation of the spans of all emitted
results (tokens and error results alike) and all skipped whitespace
characters exactly reconstructs the input: the spans are nonempty,
adjacent spans abut, the first starts at offset 0 and the last ends at
the input's length, with no gaps and no overlaps. -/
theorem lex_spans_tile_input (cs : List Char) :
    isTiling ((lexEvents cs).map evSpan) 0 cs.length := by
  have h := lexAux_tiling cs.length cs 0 (Nat.le_refl _)
  simpa using h

/-- C1 witness at a concrete input exercising tokens, whitespace and
an error result. -/
theorem lex_spans_tile_input_witness :
    isTiling ((lexEvents ("a $3").data).map evSpan) 0 ("a $3").data.length :=
  lex_spans_tile_input ("a $3").data

/-- C2 counterexample: the listed input contains sixteen keywords, so
lexing it yields 16 tokens, never "exactly the 15 corresponding
keyword tokens". -/
theorem kwInput_not_fifteen_tokens :
    (lexTokens kwInput).length = 16 ∧ ¬((lexTokens kwInput).length = 15) := by
  decide

/-- C2 amended: lexing the listed input yields exactly the sixteen
corresponding keyword tokens in order, and no Identifier token appears
in the output. -/
theorem kwInput_sixteen_keywords_in_order :
    (lexTokens kwInput).map Prod.fst =
      [.ok .Var, .ok .Mut, .ok .Fn, .ok .Const, .ok .Struct, .ok .Enum,
       .ok .Union, .ok .If, .ok .Else, .ok .While, .ok .For, .ok .Loop,
       .ok .Match, .ok .Mod, .ok .Return, .ok .Panic]
    ∧ ¬(LexResult.ok .Identifier ∈ (lexTokens kwInput).map Prod.fst) := by
  decide

/-- C3 counterexample: two Identifier values with equal names but
different spans do not compare equal under the derived equality, so
identifier equality is not determined by the name field alone. -/
theorem identifier_eq_depends_on_span :
    (Identifier.new ("x") (Span.new 0 1 1 1)).name
      = (Identifier.new ("x") (Span.new 2 3 1 1)).name
    ∧ identEqb (Identifier.new ("x") (Span.new 0 1 1 1))
        (Identifier.new ("x") (Span.new 2 3 1 1)) = false := by
  decide

/-- C3 amended: two Identifier values compare equal exactly when both
their name fields and their span fields are equal; the derived
equality does include the span. -/
theorem identifier_eq_iff_name_and_span (a b : Identifier) :
    identEqb a b = true ↔ a.name = b.name ∧ a.span = b.span := by
  obtain ⟨an, asp⟩ := a
  obtain ⟨bn, bsp⟩ := b
  obtain ⟨s1, e1, l1, c1⟩ := asp
  obtain ⟨s2, e2, l2, c2⟩ := bsp
  simp [identEqb, spanEqb, Span.mk.injEq, and_assoc]

/-- C3 witness: the amended equivalence applied at concrete
identifiers with equal names and different spans. -/
theorem identifier_eq_iff_witness :
    ¬(identEqb (Identifier.new ("x") (Span.new 0 1 1 1))
        (Identifier.new ("x") (Span.new 2 3 1 1)) = true) := by
  rw [identifier_eq_iff_name_and_span]
  decide

/-- C4 counterexample: the input whose comment body ends in `*` does
not lex as a single MultiLineComment token; the comment regex rejects
it and the input lexes as six operator and identifier tokens. -/
theorem star_terminated_body_not_comment :
    lexTokens starBody =
      [(.ok .Slash, 0, 1), (.ok .Star, 1, 2), (.ok .Identifier, 3, 4),
       (.ok .Star, 5, 6), (.ok .Star, 6, 7), (.ok .Slash, 7, 8)]
    ∧ ¬(lexTokens starBody = [(.ok .MultiLineComment, 0, 8)]) := by
  decide

/-- C4 amended: for every multi-line comment input of the form `/*`,
body, `*/` whose body matches `([^*]|\*[^/])*` (lone `*` or `/`
characters inside the body are fine, but the body must not contain
`*/` and must not end in `*`), the lexer emits a single
MultiLineComment token spanning the whole input, terminating at the
first occurrence of `*/`. -/
theorem valid_body_block_comment_single_token (body : List Char)
    (h : validBody body = true) :
    lexEvents ('/' :: '*' :: (body ++ ['*', '/'])) =
      [.tok (.ok .MultiLineComment) 0 (body.length + 4)] := by
  have hb : matchBlockBody (body ++ ['*', '/']) = some (body.length + 2) :=
    matchBlockBody_append body [] h
  have h7 : matchBlockComment ('/' :: '*' :: (body ++ ['*', '/'])) =
      some (body.length + 4) := by
    simp only [matchBlockComment]
    rw [hb, Option.map_some']
  have h1 : matchInt ('/' :: '*' :: (body ++ ['*', '/'])) = none := rfl
  have h2 : matchFloat ('/' :: '*' :: (body ++ ['*', '/'])) = none := rfl
  have h3 : matchStringLit ('/' :: '*' :: (body ++ ['*', '/'])) = none := rfl
  have h4 : matchCharLit ('/' :: '*' :: (body ++ ['*', '/'])) = none := rfl
  have h5 : matchIdent ('/' :: '*' :: (body ++ ['*', '/'])) = none := rfl
  have h6 : matchLineComment ('/' :: '*' :: (body ++ ['*', '/'])) = none := rfl
  have h8 : matchAttribute ('/' :: '*' :: (body ++ ['*', '/'])) = none := rfl
  have hfix : fixedList.filterMap
      (fun pr => if prefixAt pr.1.data ('/' :: '*' :: (body ++ ['*', '/']))
                 then some (pr.2, pr.1.data.length) else none)
      = [(Token.Slash, 1)] := rfl
  have hcand : candidates ('/' :: '*' :: (body ++ ['*', '/'])) =
      [(Token.Slash, 1), (Token.MultiLineComment, body.length + 4)] := by
    unfold candidates
    rw [hfix]
    simp only [regexList, List.filterMap_cons, List.filterMap_nil,
      h1, h2, h3, h4, h5, h6, h7, h8, Option.map_some', Option.map_none',
      List.singleton_append]
  have hlt : ((Token.Slash, 1) : Token × Nat).2 <
      ((Token.MultiLineComment, body.length + 4) : Token × Nat).2 := by
    dsimp only
    omega
  have hbest : bestMatch ('/' :: '*' :: (body ++ ['*', '/'])) =
      some (Token.MultiLineComment, body.length + 4) := by
    unfold bestMatch
    rw [hcand]
    simp only [List.foldl_cons, List.foldl_nil, better, if_pos hlt]
  have hws : isWhitespace '/' = false := rfl
  have hlen : ('/' :: '*' :: (body ++ ['*', '/'])).length = (body.length + 3) + 1 := by
    simp only [List.length_cons, List.length_append, List.length_nil]
  have hdrop : ('*' :: (body ++ ['*', '/'])).drop (body.length + 4 - 1) = [] := by
    rw [show body.length + 4 - 1 = ('*' :: (body ++ ['*', '/'])).length by
      simp only [List.length_cons, List.length_append, List.length_nil]
      omega]
    exact List.drop_length _
  unfold lexEvents
  rw [hlen, lexAux_step_tok _ _ hws hbest, hdrop, lexAux_nil]
  simp

/-- C4 witness: the amended statement applied at the body consisting
of a space, the letter a and a space, recovering the comment input
with a lone star-free body. -/
theorem valid_body_block_comment_witness :
    validBody [' ', 'a', ' '] = true
    ∧ lexEvents ('/' :: '*' :: ([' ', 'a', ' '] ++ ['*', '/'])) =
        [.tok (.ok .MultiLineComment) 0 ([' ', 'a', ' '].length + 4)] :=
  ⟨by decide, valid_body_block_comment_single_token [' ', 'a', ' '] (by decide)⟩

/-- C5: on input matching no token rule the lexer emits an error
result carrying the one-code-point offending span inline in the output
and resumes scanning right after it; a single pass over an input with
several unrecognized characters reports one error per occurrence and
still yields the tokens between them. -/
theorem lex_error_skips_one_and_continues :
    (∀ (c : Char) (cs : List Char) (fuel pos : Nat),
        isWhitespace c = false → bestMatch (c :: cs) = none →
        lexAux (fuel + 1) (c :: cs) pos =
          .tok .err pos (pos + 1) :: lexAux fuel cs (pos + 1))
    ∧ lexTokens ("$ x $ y") =
        [(.err, 0, 1), (.ok .Identifier, 2, 3), (.err, 4, 5), (.ok .Identifier, 6, 7)] := by
  constructor
  · intro c cs fuel pos hws hm
    exact lexAux_step_err fuel pos hws hm
  · decide

/-- C5 witness: the error-recovery step applied at the concrete
unrecognized character `$`. -/
theorem lex_error_skip_witness :
    isWhitespace '$' = false
    ∧ bestMatch ['$', 'a'] = none
    ∧ lexAux 2 ['$', 'a'] 0 = .tok .err 0 1 :: lexAux 1 ['a'] 1 :=
  ⟨rfl, rfl, lex_error_skips_one_and_continues.1 '$' ['a'] 1 0 rfl rfl⟩

/-- C6: the Display rendering of Type is a total function (a Lean
function is total by construction, covering every variant with no
panics and no I/O) and produces exactly the required strings; a Named
path renders its segments joined by `::`, with generic arguments
rendered comma-separated between `<` and `>` when present. -/
theorem type_display_required_renderings :
    Ty.display .I32 = "i32"
    ∧ Ty.display (.Array .I32 none) = "[i32]"
    ∧ Ty.display (.Pointer .I32 .Mutable) = "*mut i32"
    ∧ Ty.display (.Reference .I32 .Immutable) = "&i32"
    ∧ Ty.display (.Tuple [.I32, .F64]) = "(i32, f64)"
    ∧ Ty.display (.Function [.I32] .Bool) = "fn(i32) -> bool"
    ∧ (∀ (segs : List TypePathSegment) (sp : Span),
        Ty.display (.Named (.mk segs sp)) = joinSep ("::") (segs.map displaySegment))
    ∧ (∀ (id : Identifier) (args : List Ty) (sp : Span),
        displaySegment (.mk id (some args) sp) =
          id.name ++ "<" ++ joinSep (", ") (args.map Ty.display) ++ ">") := by
  refine ⟨?_, ?_, ?_, ?_, ?_, ?_, ?_, ?_⟩
  · simp [Ty.display]
  · simp [Ty.display]
  · simp [Ty.display]
  · simp [Ty.display]
  · simp [Ty.display, displayList]
  · simp [Ty.display, displayList]
  · intro segs sp
    simp only [Ty.display]
    exact displaySegments_eq_joinSep segs
  · intro id args sp
    simp only [displaySegment]
    rw [displayList_eq_joinSep]

/-- C7: exact keyword rules win against the identifier rule only at
equal match length, and the longest match wins otherwise: `if` lexes
as the If keyword, while `ifx` lexes as a single Identifier token and
never as If followed by residue. -/
theorem keyword_vs_identifier_priority :
    lexTokens ("if") = [(.ok .If, 0, 2)]
    ∧ lexTokens ("ifx") = [(.ok .Identifier, 0, 3)] := by
  decide

/-- C8: multi-character operators are matched in preference to their
single-character prefixes: `<=` lexes as one LtEq token, while the
space-separated `< =` lexes as Lt then Assign. -/
theorem multichar_operator_priority :
    lexTokens ("<=") = [(.ok .LtEq, 0, 2)]
    ∧ lexTokens ("< =") = [(.ok .Lt, 0, 1), (.ok .Assign, 2, 3)] := by
  decide

/-- C9 counterexample: `Span::new` performs no validation, so the span
built from start 5 and end 3 violates the claimed invariant. -/
theorem span_new_violates_invariant :
    ¬((Span.new 5 3 1 1).start ≤ (Span.new 5 3 1 1).«end») := by
  decide

/-- C9 amended: `Span::dummy` satisfies the invariant, and `Span::new`
returns exactly the fields it is given, so the span it builds
satisfies start ≤ end precisely when the given start is at most the
given end. -/
theorem span_invariant_characterization :
    Span.dummy.start ≤ Span.dummy.«end»
    ∧ ∀ (s e l c : Nat),
        ((Span.new s e l c).start ≤ (Span.new s e l c).«end» ↔ s ≤ e) := by
  constructor
  · decide
  · intro s e l c
    simp [Span.new]

/-- C10: for every type, an immutable pointer renders as `*const `
followed by the pointee's rendering, and a mutable reference renders
as `&mut ` followed by the referent's rendering. -/
theorem const_pointer_and_mut_reference_rendering (t : Ty) :
    Ty.display (.Pointer t .Immutable) = "*const " ++ Ty.display t
    ∧ Ty.display (.Reference t .Mutable) = "&mut " ++ Ty.display t := by
  constructor
  · simp [Ty.display]
  · simp [Ty.display]

end Zenith
